import Mathlib

/-!
Verification of the `snippet-parse` snippet-expansion engine.

The data model and the renderer are shallowly embedded from `src/lib.rs`.
`Rc<T>` indirection is flattened to direct containment (the renderer only
dereferences it), and `Weak<T>` back-references are modelled as arena
handles (`Nat` identifiers), following the spec's own design note that
non-owning references are realized as handles into an arena of fragments.
`u8` tab numbers are modelled as `Nat`; nothing proved here depends on the
8-bit bound.
-/

namespace SnippetParse

/-- Defines where a variable comes from (`enum VariableSource`). -/
inductive VariableSource where
  | Daemon : VariableSource
  | Client : VariableSource
deriving DecidableEq, Repr

/-- Part of the snippet produced by replacing matching patterns
(`struct Transformation`). `section` is a Lean keyword, hence the
guillemets; it is the same field name as in the source. -/
structure Transformation where
  «section» : String
  format : String
  flags : String
  result : String
deriving DecidableEq, Repr

/-- Part of the snippet filled in by program variables (`struct Variable`). -/
structure Variable where
  name : String
  value : String
  source : VariableSource
deriving DecidableEq, Repr

/-- Part of the snippet filled in with the output of an external program
(`struct Code`). -/
structure Code where
  code : String
  output : String
  shebang : String
deriving DecidableEq, Repr

/-- Selections cycled through to be filled in by the user (`struct Tab`).
`field` and `transformations` are `Weak` references in the source,
modelled as arena handles. -/
structure Tab where
  num : Nat
  field : Nat
  transformations : List Nat
deriving DecidableEq, Repr

/-- Text filled in by a program (`struct Expansion<E>`); the `Weak<E>`
reference is modelled as an arena handle, keeping `E` as a phantom
parameter. -/
structure Expansion (E : Type) where
  expansion : Nat
  transformations : List Nat
deriving DecidableEq, Repr

/-- Segments given a name so they can be reused (`enum NamedSegment`);
the `Weak` references are modelled as arena handles. -/
inductive NamedSegment where
  | Transformation : String → Nat → NamedSegment
  | Code : String → Nat → NamedSegment
deriving DecidableEq, Repr

mutual

/-- The snippet segmented into normal and non-normal text (`enum Segment`). -/
inductive Segment where
  | Text : String → Segment
  | Field : Field → Segment
  | Transformation : Transformation → Segment
  | Variable : Variable → Segment
  | Code : Code → Segment
  | Snippet : Snippet → Segment

/-- Part of the snippet fashioned from user input (`enum Field`). -/
inductive Field where
  | Placeholder : List Segment → Field
  | Choice : Nat → List (List Segment) → Field

/-- A portion of text representing often-typed-out text (`struct Snippet`). -/
inductive Snippet where
  | mk : List Segment → List Tab → List (Expansion Variable) →
      List (Expansion Code) → List NamedSegment → Snippet

end

/-- `Snippet.body` field accessor. -/
def Snippet.body : Snippet → List Segment
  | .mk b _ _ _ _ => b

/-- `Snippet.tabs` field accessor. -/
def Snippet.tabs : Snippet → List Tab
  | .mk _ t _ _ _ => t

/-- `Snippet.variables` field accessor. -/
def Snippet.variables : Snippet → List (Expansion Variable)
  | .mk _ _ v _ _ => v

/-- `Snippet.code_expansions` field accessor. -/
def Snippet.code_expansions : Snippet → List (Expansion Code)
  | .mk _ _ _ c _ => c

/-- `Snippet.named_segments` field accessor. -/
def Snippet.named_segments : Snippet → List NamedSegment
  | .mk _ _ _ _ n => n

/-- The primitive `write!(f, "{}", s)` on a string-buffer formatter: appends
to the buffer and succeeds. `Except Unit` models `fmt::Result`
(`Result<(), fmt::Error>`); a `String`-backed formatter never fails. -/
def writeStr (buf s : String) : Except Unit String := .ok (buf ++ s)

/-- `impl fmt::Display for Variable`: writes `self.value`. -/
def fmtVariable (v : Variable) (buf : String) : Except Unit String :=
  writeStr buf v.value

/-- `impl fmt::Display for Code`: writes `self.output`. -/
def fmtCode (c : Code) (buf : String) : Except Unit String :=
  writeStr buf c.output

/-- `impl fmt::Display for Transformation`: writes `self.result`. -/
def fmtTransformation (t : Transformation) (buf : String) : Except Unit String :=
  writeStr buf t.result

mutual

/-- `impl fmt::Display for Segment`: dispatches on the variant. -/
def fmtSegment : Segment → String → Except Unit String
  | .Text text, buf => writeStr buf text
  | .Variable variable_, buf => fmtVariable variable_ buf
  | .Code code, buf => fmtCode code buf
  | .Snippet snippet, buf => fmtSnippet snippet buf
  | .Field field, buf => fmtField field buf
  | .Transformation transformation, buf => fmtTransformation transformation buf

/-- `impl fmt::Display for Field`: a `Placeholder` writes each segment of its
body; a `Choice` looks up `child_body.get(choice)` and, when the index is
out of range, returns `Ok(())` writing nothing. -/
def fmtField : Field → String → Except Unit String
  | .Placeholder child_body, buf => fmtList child_body buf
  | .Choice choice child_body, buf => fmtChoice choice child_body buf

/-- Structural rendering of `child_body.get(choice)`: walks the options list;
an exhausted list is the `None` case of `get`, returning `Ok(())`. -/
def fmtChoice : Nat → List (List Segment) → String → Except Unit String
  | _, [], buf => .ok buf
  | 0, child_body :: _, buf => fmtList child_body buf
  | n + 1, _ :: rest, buf => fmtChoice n rest buf

/-- `impl fmt::Display for Snippet`: writes each segment of `self.body`. -/
def fmtSnippet : Snippet → String → Except Unit String
  | .mk body _ _ _ _, buf => fmtList body buf

/-- The `while let Some(seg) = body.next() { write!(f, "{}", seg)?; }` loop:
writes each segment in order, propagating the first error. -/
def fmtList : List Segment → String → Except Unit String
  | [], buf => .ok buf
  | seg :: rest, buf =>
    match fmtSegment seg buf with
    | .error e => .error e
    | .ok buf' => fmtList rest buf'

end

mutual

/-- The spec's render contract, written from the spec's words for
comparison with the code-derived `fmtSegment`: a pure fold where Text
yields its literal, Field the concatenation of its active body,
Transformation its cached `result`, Variable its `value`, Code its
`output`, and a nested Snippet the recursive render of its own body. -/
def specRenderSegment : Segment → String
  | .Text text => text
  | .Field field => specRenderField field
  | .Transformation transformation => transformation.result
  | .Variable variable_ => variable_.value
  | .Code code => code.output
  | .Snippet snippet => specRenderSnippet snippet

/-- The spec's render of a Field: the concatenation of the renders of the
Placeholder's body, or of the Choice's selected option's body, or empty
if `selected` is out of range. -/
def specRenderField : Field → String
  | .Placeholder body => specRenderList body
  | .Choice selected options => specRenderChoice selected options

/-- The selected option's render, or empty if `selected` is out of range. -/
def specRenderChoice : Nat → List (List Segment) → String
  | _, [] => ""
  | 0, body :: _ => specRenderList body
  | n + 1, _ :: rest => specRenderChoice n rest

/-- The spec's render of a Snippet: concatenation of the renders of its
body segments, in order. -/
def specRenderSnippet : Snippet → String
  | .mk body _ _ _ _ => specRenderList body

/-- Concatenation of the renders of a list of segments, in order. -/
def specRenderList : List Segment → String
  | [] => ""
  | seg :: rest => specRenderSegment seg ++ specRenderList rest

end

/-- The snippet built by the `tests::construct_snippet` test:
body = [Choice(1, [["Hi"], ["Hello"], ["Howdee"]]), Text(" there "),
Placeholder(["John"])], all other fields empty. -/
def construct_snippet : Snippet :=
  .mk [.Field (.Choice 1 [[.Text "Hi"], [.Text "Hello"], [.Text "Howdee"]]),
       .Text " there ",
       .Field (.Placeholder [.Text "John"])]
    [] [] [] []

/-- Construction-time error taxonomy (`UnresolvedReference`,
`DuplicateTabIndex`) of spec §7. -/
inductive SnippetError where
  | UnresolvedReference : SnippetError
  | DuplicateTabIndex : SnippetError
deriving DecidableEq, Repr

/-- Modelled from the spec: the Reference Graph Builder's construction-time
validation is missing from `src/` (only the `Tab` and `Snippet`
declarations exist there). Per §4.1/§7, constructing a Snippet fails with
`DuplicateTabIndex` when two tabs share a `num`; otherwise the Snippet is
produced. -/
def buildSnippet (body : List Segment) (tabs : List Tab)
    (vars : List (Expansion Variable)) (codes : List (Expansion Code))
    (named : List NamedSegment) : Except SnippetError Snippet :=
  if (tabs.map Tab.num).Nodup then .ok (.mk body tabs vars codes named)
  else .error .DuplicateTabIndex

/-- Modelled from the spec: the Transformation & Derivation Engine's
`derive(transformation, source_text)` is missing from `src/` (only the
`Transformation` declaration exists there). Per §4.3 it applies the
pattern in `section` under `flags` to the source text and substitutes the
matches according to `format`; the regular-expression engine itself is an
external collaborator (§1, non-goals), so it is a parameter: `find pat
flags src` returns the match sites (position, length) and `subst format
flags src sites` the substituted text. On no match the source text is
passed through unchanged; the function is total, so derivation never
signals an error. -/
def derive (find : String → String → String → List (Nat × Nat))
    (subst : String → String → String → List (Nat × Nat) → String)
    (t : Transformation) (src : String) : String :=
  match find t.«section» t.flags src with
  | [] => src
  | m :: ms => subst t.format t.flags src (m :: ms)

/-- The lowest value in a list of tab numbers, `none` when there are no
tabs. -/
def lowestNum : List Nat → Option Nat
  | [] => none
  | n :: rest =>
    match lowestNum rest with
    | none => some n
    | some m => some (min n m)

/-- The highest value in a list of tab numbers, `none` when there are no
tabs. -/
def highestNum : List Nat → Option Nat
  | [] => none
  | n :: rest =>
    match highestNum rest with
    | none => some n
    | some m => some (max n m)

/-- The lowest tab number strictly greater than `c`, `none` when there is
none. -/
def lowestNumAbove (c : Nat) : List Nat → Option Nat
  | [] => none
  | n :: rest =>
    if c < n then
      match lowestNumAbove c rest with
      | none => some n
      | some m => some (min n m)
    else lowestNumAbove c rest

/-- The highest tab number strictly less than `c`, `none` when there is
none. -/
def highestNumBelow (c : Nat) : List Nat → Option Nat
  | [] => none
  | n :: rest =>
    if n < c then
      match highestNumBelow c rest with
      | none => some n
      | some m => some (max n m)
    else highestNumBelow c rest

/-- Modelled from the spec: the Tab Cycle Controller is missing from `src/`
(only the `Tab` declaration exists there). Per §4.2, `next()` moves to the
lowest `num` strictly greater than the current active `num`, wrapping to
the lowest overall after the last; from no active tab it moves to the
lowest overall; with zero tabs it is a no-op returning no active tab. -/
def nextTab (tabs : List Tab) (active : Option Nat) : Option Nat :=
  match active with
  | none => lowestNum (tabs.map Tab.num)
  | some c =>
    match lowestNumAbove c (tabs.map Tab.num) with
    | some n => some n
    | none => lowestNum (tabs.map Tab.num)

/-- Modelled from the spec: `previous()` of the Tab Cycle Controller,
symmetric to `next()`: it moves to the highest `num` strictly less than
the current active `num`, wrapping to the highest overall before the
first; with zero tabs it is a no-op returning no active tab. -/
def prevTab (tabs : List Tab) (active : Option Nat) : Option Nat :=
  match active with
  | none => highestNum (tabs.map Tab.num)
  | some c =>
    match highestNumBelow c (tabs.map Tab.num) with
    | some n => some n
    | none => highestNum (tabs.map Tab.num)

/-- Modelled from the spec: `jump(num)` of the Tab Cycle Controller moves
directly to the tab numbered `num` when one exists; otherwise the active
tab is unchanged, so with zero tabs it is a no-op. -/
def jumpTab (tabs : List Tab) (n : Nat) (active : Option Nat) : Option Nat :=
  if (tabs.map Tab.num).contains n then some n else active

/-- Replace the element at an index by `f`, leaving every other position
and the length unchanged. -/
def modifyAt (f : α → α) : Nat → List α → List α
  | _, [] => []
  | 0, x :: xs => f x :: xs
  | n + 1, x :: xs => x :: modifyAt f n xs

/-- Modelled from the spec: re-derivation of one Transformation's cached
`result` from its source's current rendered text (§4.3: `result` is a
cache that must be recomputed whenever the source's text changes); only
`result` is written, the rule fields stay as they are. -/
def rederive (find : String → String → String → List (Nat × Nat))
    (subst : String → String → String → List (Nat × Nat) → String)
    (srcText : String) (t : Transformation) : Transformation :=
  { t with result := derive find subst t srcText }

/-- Modelled from the spec: the arena of mutable fragments (design note §9:
fragments keyed by stable identifiers, with Tabs holding handles), holding
the Fields and Transformations a Tab's handles point into. -/
structure FragmentArena where
  fields : List Field
  transformations : List Transformation

/-- Modelled from the spec: the edit-propagation step is missing from `src/`
(only the `Tab` and `Expansion` declarations exist there). Per §4.2/§4.3,
a change to a Tab's Field (direct edit, Choice re-selection, or an
upstream Variable/Code resolution — all of which replace the Field's
current content, here `newField`) installs the new Field and then
re-derives every Transformation in the Tab's dependency list — the
Transformations whose source is that Field, NamedSegment aliases included,
since aliases resolve to the same handle — from the Field's new rendered
text, before control returns to the caller; a later render therefore only
sees freshly derived results. -/
def editField (find : String → String → String → List (Nat × Nat))
    (subst : String → String → String → List (Nat × Nat) → String)
    (arena : FragmentArena) (tab : Tab) (newField : Field) : FragmentArena :=
  { fields := modifyAt (fun _ => newField) tab.field arena.fields,
    transformations := tab.transformations.foldl
      (fun ts i => modifyAt (rederive find subst (specRenderField newField)) i ts)
      arena.transformations }

/-- `lowestNum` returns `none` only on an empty list. -/
theorem lowestNum_eq_none {l : List Nat} (h : lowestNum l = none) : l = [] := by
  cases l with
  | nil => rfl
  | cons a rest =>
    rw [lowestNum] at h
    cases hr : lowestNum rest <;> simp [hr] at h

/-- `highestNum` returns `none` only on an empty list. -/
theorem highestNum_eq_none {l : List Nat} (h : highestNum l = none) : l = [] := by
  cases l with
  | nil => rfl
  | cons a rest =>
    rw [highestNum] at h
    cases hr : highestNum rest <;> simp [hr] at h

/-- The lowest tab number is one of the tab numbers and bounds them all
from below. -/
theorem lowestNum_spec : ∀ (l : List Nat) (n : Nat), lowestNum l = some n →
    n ∈ l ∧ ∀ m ∈ l, n ≤ m := by
  intro l
  induction l with
  | nil => intro n h; cases h
  | cons a rest ih =>
    intro n h
    rw [lowestNum] at h
    cases hr : lowestNum rest with
    | none =>
      rw [hr] at h
      cases h
      have : rest = [] := lowestNum_eq_none hr
      subst this
      simp
    | some m =>
      rw [hr] at h
      cases h
      obtain ⟨hmem, hle⟩ := ih m hr
      constructor
      · rcases le_total a m with hc | hc
        · simp [min_eq_left hc]
        · simpa [min_eq_right hc] using Or.inr hmem
      · intro x hx
        rcases List.mem_cons.1 hx with rfl | hx
        · exact min_le_left _ _
        · exact le_trans (min_le_right _ _) (hle x hx)

/-- The highest tab number is one of the tab numbers and bounds them all
from above. -/
theorem highestNum_spec : ∀ (l : List Nat) (n : Nat), highestNum l = some n →
    n ∈ l ∧ ∀ m ∈ l, m ≤ n := by
  intro l
  induction l with
  | nil => intro n h; cases h
  | cons a rest ih =>
    intro n h
    rw [highestNum] at h
    cases hr : highestNum rest with
    | none =>
      rw [hr] at h
      cases h
      have : rest = [] := highestNum_eq_none hr
      subst this
      simp
    | some m =>
      rw [hr] at h
      cases h
      obtain ⟨hmem, hle⟩ := ih m hr
      constructor
      · rcases le_total a m with hc | hc
        · simpa [max_eq_right hc] using Or.inr hmem
        · simp [max_eq_left hc]
      · intro x hx
        rcases List.mem_cons.1 hx with rfl | hx
        · exact le_max_left _ _
        · exact le_trans (hle x hx) (le_max_right _ _)

/-- On a nonempty list `lowestNum` returns a value. -/
theorem lowestNum_isSome {l : List Nat} (h : l ≠ []) :
    ∃ n, lowestNum l = some n := by
  cases hr : lowestNum l with
  | none => exact absurd (lowestNum_eq_none hr) h
  | some n => exact ⟨n, rfl⟩

/-- On a nonempty list `highestNum` returns a value. -/
theorem highestNum_isSome {l : List Nat} (h : l ≠ []) :
    ∃ n, highestNum l = some n := by
  cases hr : highestNum l with
  | none => exact absurd (highestNum_eq_none hr) h
  | some n => exact ⟨n, rfl⟩

/-- When some tab number lies strictly above `c`, `lowestNumAbove`
returns a value. -/
theorem lowestNumAbove_isSome : ∀ (l : List Nat) (c m : Nat), m ∈ l → c < m →
    ∃ n, lowestNumAbove c l = some n := by
  intro l
  induction l with
  | nil => intro c m hm; cases hm
  | cons a rest ih =>
    intro c m hm hcm
    rw [lowestNumAbove]
    by_cases hca : c < a
    · rw [if_pos hca]
      cases lowestNumAbove c rest with
      | none => exact ⟨a, rfl⟩
      | some k => exact ⟨min a k, rfl⟩
    · rw [if_neg hca]
      rcases List.mem_cons.1 hm with rfl | hm
      · exact absurd hcm hca
      · exact ih c m hm hcm

/-- When some tab number lies strictly below `c`, `highestNumBelow`
returns a value. -/
theorem highestNumBelow_isSome : ∀ (l : List Nat) (c m : Nat), m ∈ l → m < c →
    ∃ n, highestNumBelow c l = some n := by
  intro l
  induction l with
  | nil => intro c m hm; cases hm
  | cons a rest ih =>
    intro c m hm hmc
    rw [highestNumBelow]
    by_cases hac : a < c
    · rw [if_pos hac]
      cases highestNumBelow c rest with
      | none => exact ⟨a, rfl⟩
      | some k => exact ⟨max a k, rfl⟩
    · rw [if_neg hac]
      rcases List.mem_cons.1 hm with rfl | hm
      · exact absurd hmc hac
      · exact ih c m hm hmc

/-- What `lowestNumAbove` returns is a tab number strictly above `c` and is
the least such. -/
theorem lowestNumAbove_spec : ∀ (l : List Nat) (c n : Nat),
    lowestNumAbove c l = some n →
    n ∈ l ∧ c < n ∧ ∀ m ∈ l, c < m → n ≤ m := by
  intro l
  induction l with
  | nil => intro c n h; cases h
  | cons a rest ih =>
    intro c n h
    rw [lowestNumAbove] at h
    by_cases hca : c < a
    · rw [if_pos hca] at h
      cases hr : lowestNumAbove c rest with
      | none =>
        rw [hr] at h
        cases h
        refine ⟨by simp, hca, ?_⟩
        intro m hm hcm
        rcases List.mem_cons.1 hm with rfl | hm
        · exact le_refl _
        · obtain ⟨k, hk⟩ := lowestNumAbove_isSome rest c m hm hcm
          rw [hk] at hr
          cases hr
      | some m =>
        rw [hr] at h
        cases h
        obtain ⟨hmem, hcm, hle⟩ := ih c m hr
        refine ⟨?_, lt_min hca hcm, ?_⟩
        · rcases le_total a m with hc | hc
          · simp [min_eq_left hc]
          · simpa [min_eq_right hc] using Or.inr hmem
        · intro x hx hcx
          rcases List.mem_cons.1 hx with rfl | hx
          · exact min_le_left _ _
          · exact le_trans (min_le_right _ _) (hle x hx hcx)
    · rw [if_neg hca] at h
      obtain ⟨hmem, hcn, hle⟩ := ih c n h
      refine ⟨List.mem_cons_of_mem _ hmem, hcn, ?_⟩
      intro x hx hcx
      rcases List.mem_cons.1 hx with rfl | hx
      · exact absurd hcx hca
      · exact hle x hx hcx

/-- What `highestNumBelow` returns is a tab number strictly below `c` and is
the greatest such. -/
theorem highestNumBelow_spec : ∀ (l : List Nat) (c n : Nat),
    highestNumBelow c l = some n →
    n ∈ l ∧ n < c ∧ ∀ m ∈ l, m < c → m ≤ n := by
  intro l
  induction l with
  | nil => intro c n h; cases h
  | cons a rest ih =>
    intro c n h
    rw [highestNumBelow] at h
    by_cases hac : a < c
    · rw [if_pos hac] at h
      cases hr : highestNumBelow c rest with
      | none =>
        rw [hr] at h
        cases h
        refine ⟨by simp, hac, ?_⟩
        intro m hm hmc
        rcases List.mem_cons.1 hm with rfl | hm
        · exact le_refl _
        · obtain ⟨k, hk⟩ := highestNumBelow_isSome rest c m hm hmc
          rw [hk] at hr
          cases hr
      | some m =>
        rw [hr] at h
        cases h
        obtain ⟨hmem, hmc, hle⟩ := ih c m hr
        refine ⟨?_, max_lt hac hmc, ?_⟩
        · rcases le_total a m with hc | hc
          · simpa [max_eq_right hc] using Or.inr hmem
          · simp [max_eq_left hc]
        · intro x hx hxc
          rcases List.mem_cons.1 hx with rfl | hx
          · exact le_max_left _ _
          · exact le_trans (hle x hx hxc) (le_max_right _ _)
    · rw [if_neg hac] at h
      obtain ⟨hmem, hnc, hle⟩ := ih c n h
      refine ⟨List.mem_cons_of_mem _ hmem, hnc, ?_⟩
      intro x hx hxc
      rcases List.mem_cons.1 hx with rfl | hx
      · exact absurd hxc hac
      · exact hle x hx hxc

/-- When every tab number is at most `c`, there is nothing strictly above
it. -/
theorem lowestNumAbove_eq_none : ∀ (l : List Nat) (c : Nat),
    (∀ m ∈ l, m ≤ c) → lowestNumAbove c l = none := by
  intro l
  induction l with
  | nil => intro c _; rfl
  | cons a rest ih =>
    intro c h
    rw [lowestNumAbove, if_neg (by simpa using h a (by simp)), ih c]
    intro m hm
    exact h m (List.mem_cons_of_mem _ hm)

/-- When every tab number is at least `c`, there is nothing strictly below
it. -/
theorem highestNumBelow_eq_none : ∀ (l : List Nat) (c : Nat),
    (∀ m ∈ l, c ≤ m) → highestNumBelow c l = none := by
  intro l
  induction l with
  | nil => intro c _; rfl
  | cons a rest ih =>
    intro c h
    rw [highestNumBelow, if_neg (by simpa using h a (by simp)), ih c]
    intro m hm
    exact h m (List.mem_cons_of_mem _ hm)

/-- `specRenderChoice` computes the render of `options.get? selected`,
matching the source's `child_body.get(*choice)`. -/
theorem specRenderChoice_eq_get? (n : Nat) (options : List (List Segment)) :
    specRenderChoice n options =
      match options.get? n with
      | some body => specRenderList body
      | none => "" := by
  induction options generalizing n with
  | nil => cases n <;> simp [specRenderChoice]
  | cons b rest ih =>
    cases n with
    | zero => simp [specRenderChoice]
    | succ m => simpa [specRenderChoice] using ih m

mutual

/-- The formatter computation of a Segment succeeds and appends exactly the
spec fold's text to the buffer. -/
theorem fmtSegment_eq : ∀ (s : Segment) (buf : String),
    fmtSegment s buf = .ok (buf ++ specRenderSegment s)
  | .Text t, buf => rfl
  | .Variable v, buf => rfl
  | .Code c, buf => rfl
  | .Transformation t, buf => rfl
  | .Field f, buf => by
    rw [fmtSegment, specRenderSegment, fmtField_eq]
  | .Snippet sn, buf => by
    rw [fmtSegment, specRenderSegment, fmtSnippet_eq]

/-- The formatter computation of a Field succeeds and appends exactly the
spec fold's text to the buffer. -/
theorem fmtField_eq : ∀ (f : Field) (buf : String),
    fmtField f buf = .ok (buf ++ specRenderField f)
  | .Placeholder body, buf => by
    rw [fmtField, specRenderField, fmtList_eq]
  | .Choice choice options, buf => by
    rw [fmtField, specRenderField, fmtChoice_eq]

/-- The formatter computation of a Choice lookup succeeds and appends
exactly the spec fold's text to the buffer. -/
theorem fmtChoice_eq : ∀ (n : Nat) (options : List (List Segment)) (buf : String),
    fmtChoice n options buf = .ok (buf ++ specRenderChoice n options)
  | _, [], buf => by
    rw [fmtChoice.eq_def]
    cases buf with
    | mk data => simp [specRenderChoice.eq_def, String.append]
  | 0, body :: rest, buf => by
    rw [fmtChoice, specRenderChoice, fmtList_eq]
  | n + 1, body :: rest, buf => by
    rw [fmtChoice, specRenderChoice, fmtChoice_eq]

/-- The formatter computation of a Snippet succeeds and appends exactly the
spec fold's text to the buffer. -/
theorem fmtSnippet_eq : ∀ (sn : Snippet) (buf : String),
    fmtSnippet sn buf = .ok (buf ++ specRenderSnippet sn)
  | .mk body tabs vs cs ns, buf => by
    rw [fmtSnippet, specRenderSnippet, fmtList_eq]

/-- The formatter loop over a list of segments succeeds and appends exactly
the concatenation of the spec fold's texts to the buffer. -/
theorem fmtList_eq : ∀ (l : List Segment) (buf : String),
    fmtList l buf = .ok (buf ++ specRenderList l)
  | [], buf => by
    rw [fmtList.eq_def]
    cases buf with
    | mk data => simp [specRenderList.eq_def, String.append]
  | seg :: rest, buf => by
    have h := fmtList_eq rest (buf ++ specRenderSegment seg)
    rw [fmtList, specRenderList, fmtSegment_eq]
    simpa [String.append_assoc] using h

end

/-- C1: rendering any Segment yields exactly the text the spec's fold
prescribes: Text its literal; Field the concatenation of its active body
(Placeholder's body, or the Choice's selected option's body);
Transformation its cached `result`; Variable its `value`; Code its
`output`; a nested Snippet the recursive render of its body — and the same
for rendering a Field or a Snippet directly. -/
theorem render_is_spec_fold :
    (∀ s : Segment, fmtSegment s "" = .ok (specRenderSegment s)) ∧
    (∀ f : Field, fmtField f "" = .ok (specRenderField f)) ∧
    (∀ sn : Snippet, fmtSnippet sn "" = .ok (specRenderSnippet sn)) := by
  refine ⟨fun s => ?_, fun f => ?_, fun sn => ?_⟩
  · simpa using fmtSegment_eq s ""
  · simpa using fmtField_eq f ""
  · simpa using fmtSnippet_eq sn ""

/-- C2: a Choice field whose selected index is out of range
(`options.length ≤ selected`, including an empty options list) renders as
the empty string — the formatter returns `Ok` leaving the buffer
untouched — and never signals an error. -/
theorem choice_out_of_range_renders_empty (selected : Nat)
    (options : List (List Segment)) (buf : String)
    (h : options.length ≤ selected) :
    fmtField (.Choice selected options) buf = .ok buf := by
  rw [fmtField, fmtChoice_eq, specRenderChoice_eq_get?,
    List.get?_eq_none.2 h]
  simp

/-- Witness for C2 at concrete inputs: an empty options list and a
too-large index into a nonempty one. -/
theorem choice_out_of_range_renders_empty_witness :
    fmtField (.Choice 0 []) "ab" = .ok "ab" ∧
    fmtField (.Choice 3 [[.Text "Hi"]]) "x" = .ok "x" :=
  ⟨choice_out_of_range_renders_empty 0 [] "ab" (by decide),
   choice_out_of_range_renders_empty 3 [[.Text "Hi"]] "x" (by decide)⟩

/-- C3: render is deterministic and side-effect-free. The embedding is
purely functional, so rendering cannot mutate any fragment; this theorem
expresses the rest: the text a Snippet contributes is a single string
determined by the Snippet alone — independent of any prior formatter
state — so two render calls with no intervening mutation append identical
text. -/
theorem render_deterministic (sn : Snippet) :
    ∃ t : String, ∀ buf : String, fmtSnippet sn buf = .ok (buf ++ t) :=
  ⟨specRenderSnippet sn, fun buf => fmtSnippet_eq sn buf⟩

/-- C4: render is total: on every Segment, Field and Snippet the formatter
computation succeeds with a string and never signals an error, and
unresolved upstream fragments degrade to empty text: an out-of-range
Choice, a Variable with empty `value` and a Code with empty `output`
each contribute nothing to the buffer. -/
theorem render_total :
    (∀ (s : Segment) (buf : String), ∃ out, fmtSegment s buf = .ok out) ∧
    (∀ (f : Field) (buf : String), ∃ out, fmtField f buf = .ok out) ∧
    (∀ (sn : Snippet) (buf : String), ∃ out, fmtSnippet sn buf = .ok out) ∧
    (∀ (selected : Nat) (options : List (List Segment)) (buf : String),
      options.length ≤ selected →
        fmtField (.Choice selected options) buf = .ok buf) ∧
    (∀ (v : Variable) (buf : String), v.value = "" →
        fmtSegment (.Variable v) buf = .ok buf) ∧
    (∀ (c : Code) (buf : String), c.output = "" →
        fmtSegment (.Code c) buf = .ok buf) := by
  refine ⟨fun s buf => ⟨_, fmtSegment_eq s buf⟩,
    fun f buf => ⟨_, fmtField_eq f buf⟩,
    fun sn buf => ⟨_, fmtSnippet_eq sn buf⟩,
    fun selected options buf h => ?_, fun v buf h => ?_, fun c buf h => ?_⟩
  · rw [fmtField, fmtChoice_eq, specRenderChoice_eq_get?,
      List.get?_eq_none.2 h]
    simp
  · rw [fmtSegment_eq]
    simp [specRenderSegment, h]
  · rw [fmtSegment_eq]
    simp [specRenderSegment, h]

/-- Witness for C4 at concrete inputs: an out-of-range Choice, an
unresolved Variable and a failed Code each render as empty text. -/
theorem render_total_witness :
    fmtField (.Choice 5 []) "" = .ok "" ∧
    fmtSegment (.Variable ⟨"HOME", "", .Daemon⟩) "x" = .ok "x" ∧
    fmtSegment (.Code ⟨"ls", "", "sh"⟩) "y" = .ok "y" :=
  ⟨render_total.2.2.2.1 5 [] "" (by decide),
   render_total.2.2.2.2.1 ⟨"HOME", "", .Daemon⟩ "x" rfl,
   render_total.2.2.2.2.2 ⟨"ls", "", "sh"⟩ "y" rfl⟩

/-- C5: the concrete snippet of the `construct_snippet` test renders to
exactly "Hello there John". -/
theorem construct_snippet_renders :
    fmtSnippet construct_snippet "" = .ok "Hello there John" := rfl

/-- C10: rendering a Snippet depends only on its body: two Snippets with
equal bodies render identically, whatever their `tabs`, `variables`,
`code_expansions` and `named_segments` hold. -/
theorem render_depends_only_on_body (s₁ s₂ : Snippet) (buf : String)
    (h : s₁.body = s₂.body) :
    fmtSnippet s₁ buf = fmtSnippet s₂ buf := by
  cases s₁ with
  | mk b₁ t₁ v₁ c₁ n₁ =>
    cases s₂ with
    | mk b₂ t₂ v₂ c₂ n₂ =>
      simp only [Snippet.body] at h
      simp only [fmtSnippet, h]

/-- Witness for C10: two snippets with the same body but different tabs,
variables, code expansions and named segments render identically. -/
theorem render_depends_only_on_body_witness :
    fmtSnippet (.mk [.Text "hi"] [⟨1, 0, [0]⟩] [⟨0, []⟩] [] []) "" =
      fmtSnippet (.mk [.Text "hi"] [] [] [⟨2, [1]⟩] [.Code "c" 0]) "" :=
  render_depends_only_on_body
    (.mk [.Text "hi"] [⟨1, 0, [0]⟩] [⟨0, []⟩] [] [])
    (.mk [.Text "hi"] [] [] [⟨2, [1]⟩] [.Code "c" 0]) "" rfl

/-- C6: constructing a Snippet whose tabs contain two Tabs with the same
`num` fails with `DuplicateTabIndex`, and every Snippet that construction
does produce has pairwise-distinct Tab `num`s. -/
theorem buildSnippet_rejects_duplicate_tab_num (body : List Segment)
    (tabs : List Tab) (vars : List (Expansion Variable))
    (codes : List (Expansion Code)) (named : List NamedSegment) :
    (∀ i j : Nat, ∀ hi : i < tabs.length, ∀ hj : j < tabs.length, i ≠ j →
      (tabs[i]).num = (tabs[j]).num →
      buildSnippet body tabs vars codes named = .error .DuplicateTabIndex) ∧
    (∀ s : Snippet, buildSnippet body tabs vars codes named = .ok s →
      ∀ i j : Nat, ∀ hi : i < s.tabs.length, ∀ hj : j < s.tabs.length,
        (s.tabs[i]).num = (s.tabs[j]).num → i = j) := by
  constructor
  · intro i j hi hj hne heq
    rw [buildSnippet, if_neg]
    intro hnd
    have hi' : i < (tabs.map Tab.num).length := by simpa using hi
    have hj' : j < (tabs.map Tab.num).length := by simpa using hj
    refine hne ((@List.Nodup.getElem_inj_iff _ _ hnd i hi' j hj').1 ?_)
    simpa [List.getElem_map] using heq
  · intro s hs i j hi hj heq
    rw [buildSnippet] at hs
    by_cases hnd : (tabs.map Tab.num).Nodup
    · rw [if_pos hnd] at hs
      cases hs
      simp only [Snippet.tabs] at hi hj heq
      have hi' : i < (tabs.map Tab.num).length := by simpa using hi
      have hj' : j < (tabs.map Tab.num).length := by simpa using hj
      refine (@List.Nodup.getElem_inj_iff _ _ hnd i hi' j hj').1 ?_
      simpa [List.getElem_map] using heq
    · rw [if_neg hnd] at hs
      cases hs

/-- Witness for C6: the spec's `{1,1}` example — two tabs both numbered 1 —
is rejected with `DuplicateTabIndex`. -/
theorem buildSnippet_rejects_duplicate_tab_num_witness :
    buildSnippet [] [⟨1, 0, []⟩, ⟨1, 0, []⟩] [] [] [] =
      .error .DuplicateTabIndex :=
  (buildSnippet_rejects_duplicate_tab_num [] [⟨1, 0, []⟩, ⟨1, 0, []⟩]
    [] [] []).1 0 1 (by decide) (by decide) (by decide) rfl

/-- C8: if the Transformation's pattern (its `section`, under its `flags`)
matches nowhere in the source text, `derive` returns the source text
unchanged — derivation degrades to the identity. -/
theorem derive_no_match_is_identity
    (find : String → String → String → List (Nat × Nat))
    (subst : String → String → String → List (Nat × Nat) → String)
    (t : Transformation) (src : String)
    (h : find t.«section» t.flags src = []) :
    derive find subst t src = src := by
  rw [derive, h]

/-- Witness for C8: a concrete engine reporting no match sites leaves a
concrete source text unchanged. -/
theorem derive_no_match_is_identity_witness :
    derive (fun _ _ _ => []) (fun _ _ s _ => s)
      ⟨"[0-9]+", "N", "g", ""⟩ "hello" = "hello" :=
  derive_no_match_is_identity (fun _ _ _ => []) (fun _ _ s _ => s)
    ⟨"[0-9]+", "N", "g", ""⟩ "hello" rfl

/-- `modifyAt` preserves the length of the list. -/
theorem length_modifyAt (f : α → α) : ∀ (n : Nat) (l : List α),
    (modifyAt f n l).length = l.length := by
  intro n l
  induction l generalizing n with
  | nil => cases n <;> simp [modifyAt]
  | cons x xs ih =>
    cases n with
    | zero => simp [modifyAt]
    | succ n => simp [modifyAt, ih]

/-- `modifyAt` applies `f` exactly at its index and nowhere else. -/
theorem get?_modifyAt (f : α → α) : ∀ (n : Nat) (l : List α) (j : Nat),
    (modifyAt f n l).get? j = if j = n then (l.get? j).map f else l.get? j := by
  intro n l
  induction l generalizing n with
  | nil => intro j; simp [modifyAt]
  | cons x xs ih =>
    intro j
    cases n with
    | zero =>
      cases j with
      | zero => simp [modifyAt]
      | succ j => simp [modifyAt]
    | succ n =>
      cases j with
      | zero => simp [modifyAt]
      | succ j => simpa [modifyAt, Nat.succ_inj] using ih n j

/-- The `result` written by `rederive` is precisely the derivation of the
updated Transformation itself from the source text: derivation only reads
the rule fields, which `rederive` leaves unchanged. -/
theorem rederive_result (find : String → String → String → List (Nat × Nat))
    (subst : String → String → String → List (Nat × Nat) → String)
    (src : String) (t : Transformation) :
    (rederive find subst src t).result =
      derive find subst (rederive find subst src t) src := rfl

/-- Folding re-derivation over a dependency list leaves positions outside
the list untouched and leaves every in-range position inside the list
holding a Transformation whose `result` is its own fresh derivation from
the source text. -/
theorem foldl_rederive_spec (find : String → String → String → List (Nat × Nat))
    (subst : String → String → String → List (Nat × Nat) → String)
    (src : String) : ∀ (deps : List Nat) (ts : List Transformation),
    (∀ j, j ∉ deps →
      (deps.foldl (fun ts i => modifyAt (rederive find subst src) i ts) ts).get? j
        = ts.get? j) ∧
    (∀ i ∈ deps, i < ts.length →
      ∃ t, (deps.foldl (fun ts i => modifyAt (rederive find subst src) i ts) ts).get? i
          = some t ∧ t.result = derive find subst t src) := by
  intro deps
  induction deps with
  | nil => intro ts; exact ⟨fun j _ => rfl, fun i hi => absurd hi (List.not_mem_nil i)⟩
  | cons d rest ih =>
    intro ts
    obtain ⟨ihA, ihB⟩ := ih (modifyAt (rederive find subst src) d ts)
    constructor
    · intro j hj
      have hjr : j ∉ rest := fun h => hj (List.mem_cons_of_mem _ h)
      have hjd : j ≠ d := fun h => hj (h ▸ List.mem_cons_self d rest)
      rw [List.foldl_cons, ihA j hjr, get?_modifyAt, if_neg hjd]
    · intro i hi hlen
      rw [List.foldl_cons]
      by_cases hir : i ∈ rest
      · exact ihB i hir (by rw [length_modifyAt]; exact hlen)
      · have hid : i = d := by
          rcases List.mem_cons.1 hi with h | h
          · exact h
          · exact absurd h hir
        subst hid
        rw [ihA i hir, get?_modifyAt, if_pos rfl, List.get?_eq_get hlen]
        exact ⟨rederive find subst src (ts.get ⟨i, hlen⟩), rfl,
          rederive_result find subst src (ts.get ⟨i, hlen⟩)⟩

/-- C7: on a Snippet's tabs, `next()` from active number `c` moves to the
lowest tab number strictly greater than `c`, wrapping to the lowest tab
number overall when none is greater; `previous()` is symmetric (highest
strictly lower, wrapping to the highest overall); `jump(num)` moves
directly to an existing tab number; with zero tabs every cycling operation
is a no-op returning no active tab; and on tabs numbered {1,3,2} repeated
`next()` from no active tab visits 1, 2, 3, 1. -/
theorem tab_cycling_spec (tabs : List Tab) (c : Nat) :
    (∀ m ∈ tabs.map Tab.num, c < m →
      ∃ r, nextTab tabs (some c) = some r ∧ r ∈ tabs.map Tab.num ∧ c < r ∧
        ∀ m' ∈ tabs.map Tab.num, c < m' → r ≤ m') ∧
    ((∀ m ∈ tabs.map Tab.num, m ≤ c) → tabs ≠ [] →
      ∃ r, nextTab tabs (some c) = some r ∧ r ∈ tabs.map Tab.num ∧
        ∀ m' ∈ tabs.map Tab.num, r ≤ m') ∧
    (∀ m ∈ tabs.map Tab.num, m < c →
      ∃ r, prevTab tabs (some c) = some r ∧ r ∈ tabs.map Tab.num ∧ r < c ∧
        ∀ m' ∈ tabs.map Tab.num, m' < c → m' ≤ r) ∧
    ((∀ m ∈ tabs.map Tab.num, c ≤ m) → tabs ≠ [] →
      ∃ r, prevTab tabs (some c) = some r ∧ r ∈ tabs.map Tab.num ∧
        ∀ m' ∈ tabs.map Tab.num, m' ≤ r) ∧
    (c ∈ tabs.map Tab.num → ∀ a, jumpTab tabs c a = some c) ∧
    (tabs = [] → ∀ a, nextTab tabs a = none ∧ prevTab tabs a = none ∧
      jumpTab tabs c none = none) ∧
    (nextTab [⟨1, 0, []⟩, ⟨3, 0, []⟩, ⟨2, 0, []⟩] none = some 1 ∧
      nextTab [⟨1, 0, []⟩, ⟨3, 0, []⟩, ⟨2, 0, []⟩] (some 1) = some 2 ∧
      nextTab [⟨1, 0, []⟩, ⟨3, 0, []⟩, ⟨2, 0, []⟩] (some 2) = some 3 ∧
      nextTab [⟨1, 0, []⟩, ⟨3, 0, []⟩, ⟨2, 0, []⟩] (some 3) = some 1) := by
  refine ⟨?_, ?_, ?_, ?_, ?_, ?_, by decide⟩
  · intro m hm hcm
    obtain ⟨n, hn⟩ := lowestNumAbove_isSome (tabs.map Tab.num) c m hm hcm
    obtain ⟨hmem, hcn, hle⟩ := lowestNumAbove_spec (tabs.map Tab.num) c n hn
    exact ⟨n, by rw [nextTab, hn], hmem, hcn, hle⟩
  · intro hall hne
    have hmapne : tabs.map Tab.num ≠ [] := by
      simpa [List.map_eq_nil_iff] using hne
    obtain ⟨n, hn⟩ := lowestNum_isSome hmapne
    obtain ⟨hmem, hle⟩ := lowestNum_spec (tabs.map Tab.num) n hn
    refine ⟨n, ?_, hmem, hle⟩
    rw [nextTab, lowestNumAbove_eq_none (tabs.map Tab.num) c hall, hn]
  · intro m hm hmc
    obtain ⟨n, hn⟩ := highestNumBelow_isSome (tabs.map Tab.num) c m hm hmc
    obtain ⟨hmem, hnc, hle⟩ := highestNumBelow_spec (tabs.map Tab.num) c n hn
    exact ⟨n, by rw [prevTab, hn], hmem, hnc, hle⟩
  · intro hall hne
    have hmapne : tabs.map Tab.num ≠ [] := by
      simpa [List.map_eq_nil_iff] using hne
    obtain ⟨n, hn⟩ := highestNum_isSome hmapne
    obtain ⟨hmem, hle⟩ := highestNum_spec (tabs.map Tab.num) n hn
    refine ⟨n, ?_, hmem, hle⟩
    rw [prevTab, highestNumBelow_eq_none (tabs.map Tab.num) c hall, hn]
  · intro hc a
    rw [jumpTab, if_pos (List.elem_iff.2 hc)]
  · intro h a
    subst h
    refine ⟨?_, ?_, rfl⟩ <;> cases a <;> rfl

/-- Witness for C7 at the spec's concrete tabs {1,3,2}: from active 1,
`next()` moves to 2 — the lowest number strictly above 1. -/
theorem tab_cycling_spec_witness :
    ∃ r, nextTab [⟨1, 0, []⟩, ⟨3, 0, []⟩, ⟨2, 0, []⟩] (some 1) = some r ∧
      r ∈ ([⟨1, 0, []⟩, ⟨3, 0, []⟩, ⟨2, 0, []⟩] : List Tab).map Tab.num ∧
      1 < r ∧
      ∀ m' ∈ ([⟨1, 0, []⟩, ⟨3, 0, []⟩, ⟨2, 0, []⟩] : List Tab).map Tab.num,
        1 < m' → r ≤ m' :=
  (tab_cycling_spec [⟨1, 0, []⟩, ⟨3, 0, []⟩, ⟨2, 0, []⟩] 1).1 3
    (by decide) (by decide)

/-- C9: after a Field's text changes through a Tab (direct edit, Choice
re-selection, or an upstream resolution — all replacing the Field's
content with `newField`), every Transformation in the Tab's dependency
list (all N of them, aliases included since aliases share the handle)
holds a `result` equal to a fresh derivation from the Field's new rendered
text — the edit operation re-derives them all before returning, so no
subsequent render observes a stale result. -/
theorem edit_rederives_all_dependents
    (find : String → String → String → List (Nat × Nat))
    (subst : String → String → String → List (Nat × Nat) → String)
    (arena : FragmentArena) (tab : Tab) (newField : Field) :
    ∀ i ∈ tab.transformations, i < arena.transformations.length →
      ∃ t, (editField find subst arena tab newField).transformations.get? i
          = some t ∧
        t.result = derive find subst t (specRenderField newField) := by
  intro i hi hlen
  exact (foldl_rederive_spec find subst (specRenderField newField)
    tab.transformations arena.transformations).2 i hi hlen

/-- Witness for C9: an arena with two stale Transformations, a Tab
depending on both; after the edit each one's `result` is the fresh
derivation from the new Field text. -/
theorem edit_rederives_all_dependents_witness :
    (∃ t, (editField (fun _ _ _ => []) (fun _ _ s _ => s)
        ⟨[.Placeholder []], [⟨"p", "f", "g", "stale0"⟩, ⟨"q", "h", "i", "stale1"⟩]⟩
        ⟨1, 0, [0, 1]⟩ (.Placeholder [.Text "new"])).transformations.get? 0
        = some t ∧
      t.result = derive (fun _ _ _ => []) (fun _ _ s _ => s) t
        (specRenderField (.Placeholder [.Text "new"]))) ∧
    (∃ t, (editField (fun _ _ _ => []) (fun _ _ s _ => s)
        ⟨[.Placeholder []], [⟨"p", "f", "g", "stale0"⟩, ⟨"q", "h", "i", "stale1"⟩]⟩
        ⟨1, 0, [0, 1]⟩ (.Placeholder [.Text "new"])).transformations.get? 1
        = some t ∧
      t.result = derive (fun _ _ _ => []) (fun _ _ s _ => s) t
        (specRenderField (.Placeholder [.Text "new"]))) :=
  ⟨edit_rederives_all_dependents (fun _ _ _ => []) (fun _ _ s _ => s)
      ⟨[.Placeholder []], [⟨"p", "f", "g", "stale0"⟩, ⟨"q", "h", "i", "stale1"⟩]⟩
      ⟨1, 0, [0, 1]⟩ (.Placeholder [.Text "new"]) 0 (by simp) (by simp),
    edit_rederives_all_dependents (fun _ _ _ => []) (fun _ _ s _ => s)
      ⟨[.Placeholder []], [⟨"p", "f", "g", "stale0"⟩, ⟨"q", "h", "i", "stale1"⟩]⟩
      ⟨1, 0, [0, 1]⟩ (.Placeholder [.Text "new"]) 1 (by simp) (by simp)⟩

end SnippetParse
